import Mathlib

/-!
Shallow embedding of `src/lab5/lab.cpp` (repository Mafonchik/OOP_lab5).

The C++ file defines:
* `DynamicMapMemoryResource`, a `std::pmr::memory_resource` that keeps a
  `std::map<void*, size_t> allocated_blocks_` of every block it handed out,
  frees matched blocks in `do_deallocate`, silently ignores unknown pointers,
  and in its destructor frees every remaining entry and clears the map;
* `pmr_vector<T>`, a move-only growable array over a
  `std::pmr::polymorphic_allocator<T>` with fields `data_`, `size_`,
  `capacity_`, `alloc_`, doubling growth (`grow`), `push_back`, `clear`,
  move construction / move assignment (guarded against self-assignment),
  `operator[]`, `begin/end` iteration.

Modelling choices:
* pointers (`void*` / `T*`) are `Nat` handles; `0` plays the role of
  `nullptr`, so `data_` is an `Option Nat` (none = null);
* the underlying system allocator (`std::malloc` / `std::free`) is a
  `SysState`: a monotone fresh-pointer counter, the list of live malloc'd
  blocks, and an instrumentation counter of total bytes released by `free`
  (the "secondary instrumentation hook" of the spec);
* `std::malloc` may fail; each call site takes an oracle `ok : Bool`
  telling whether the underlying allocation succeeds, and a failing
  `do_allocate` returns `none` (the thrown `std::bad_alloc`) with the map
  untouched, exactly as the source throws before inserting;
* `std::map<void*, size_t>` is an association list with unique keys
  (`mapFind` / `mapInsert` / `mapErase` mirror `find`, `operator[]=`,
  `erase`); since fresh pointers are monotone, insertion order is also key
  order, matching `std::map` iteration order;
* `pmr_vector<T>` is `PmrVector α`: the buffer handle `data_`, the list of
  live constructed elements (`elems`, so `size_ = elems.length`), the
  capacity, and the identity of the bound memory resource (`alloc_`); the
  slots `[count, capacity)` hold no constructed element and so do not
  appear in the model state;
* `polymorphic_allocator<T>.allocate n` forwards
  `n * sizeof(T)` bytes to the resource, so vector operations carry an
  element-size parameter `esz`;
* a C++ member function that can throw is translated as returning
  `Except Unit _` together with the post-call states; on the `error`
  result the returned object states are the ones the caller observes
  after the exception (the source mutates no field before the allocation
  succeeds, and the translation preserves the statement order).
-/

namespace Lab5

/-! ### `std::map<void*, size_t>` as an association list with unique keys -/

/-- `std::map::find` on the model: value stored at key `k`, if any. -/
def mapFind (m : List (Nat × Nat)) (k : Nat) : Option Nat :=
  match m with
  | [] => none
  | (k', v) :: rest => if k' = k then some v else mapFind rest k

/-- `map[k] = v` (`std::map::operator[]` followed by assignment):
overwrite the entry at `k` if present, otherwise add it at the end. -/
def mapInsert (m : List (Nat × Nat)) (k v : Nat) : List (Nat × Nat) :=
  match m with
  | [] => [(k, v)]
  | (k', v') :: rest =>
    if k' = k then (k, v) :: rest else (k', v') :: mapInsert rest k v

/-- `std::map::erase` of the (unique) entry at key `k`. -/
def mapErase (m : List (Nat × Nat)) (k : Nat) : List (Nat × Nat) :=
  match m with
  | [] => []
  | (k', v') :: rest =>
    if k' = k then rest else (k', v') :: mapErase rest k

/-! ### The underlying system allocator (`std::malloc` / `std::free`) -/

/-- State of the process heap, with an instrumentation hook counting the
bytes released by `free` (spec §8.2 "secondary instrumentation hook"). -/
structure SysState where
  nextPtr : Nat
  live : List (Nat × Nat)
  freedBytes : Nat
deriving Repr, DecidableEq

/-- A fresh heap: no live block, nothing freed, first non-null pointer 1. -/
def sysInit : SysState := ⟨1, [], 0⟩

/-- `std::malloc bytes`: the oracle `ok` says whether the underlying
allocation succeeds; on success a fresh pointer is returned and the block
becomes live, on failure the heap is untouched and `none` is returned. -/
def sysMalloc (ok : Bool) (bytes : Nat) (s : SysState) : Option Nat × SysState :=
  if ok then
    (some s.nextPtr,
     ⟨s.nextPtr + 1, s.live ++ [(s.nextPtr, bytes)], s.freedBytes⟩)
  else
    (none, s)

/-- `std::free p`: release the live block at `p` (freeing a pointer that is
not live is undefined behaviour; the model makes it a no-op). -/
def sysFree (p : Nat) (s : SysState) : SysState :=
  match mapFind s.live p with
  | some b => ⟨s.nextPtr, mapErase s.live p, s.freedBytes + b⟩
  | none => s

/-! ### `DynamicMapMemoryResource` -/

/-- The tracking allocator's own state: `std::map<void*, size_t>
allocated_blocks_`. -/
structure DMMR where
  allocated_blocks : List (Nat × Nat)
deriving Repr, DecidableEq

/-- A freshly constructed `DynamicMapMemoryResource`: empty map. -/
def dmmrInit : DMMR := ⟨[]⟩

/-- `DynamicMapMemoryResource::do_allocate(bytes, alignment)`:
`malloc` the bytes, throw `std::bad_alloc` (here: return `none`, map
untouched) if that fails, otherwise record `(ptr, bytes)` in the map and
return the pointer.  The alignment argument is accepted and unused, as in
the source. -/
def do_allocate (ok : Bool) (bytes : Nat) (_align : Nat) (r : DMMR)
    (s : SysState) : Option Nat × DMMR × SysState :=
  match sysMalloc ok bytes s with
  | (none, s') => (none, r, s')
  | (some p, s') => (some p, ⟨mapInsert r.allocated_blocks p bytes⟩, s')

/-- `DynamicMapMemoryResource::do_deallocate(p, bytes, alignment)`:
if `p` is a key of the map, `free` it and erase the entry; otherwise
silently do nothing.  Neither `bytes` nor `alignment` is consulted. -/
def do_deallocate (p : Nat) (_bytes : Nat) (r : DMMR) (s : SysState) :
    DMMR × SysState :=
  match mapFind r.allocated_blocks p with
  | some _ => (⟨mapErase r.allocated_blocks p⟩, sysFree p s)
  | none => (r, s)

/-- `DynamicMapMemoryResource::do_is_equal`: identity comparison.  Resources
are identified by a numeric id in the model. -/
def do_is_equal (self other : Nat) : Bool := self == other

/-- `DynamicMapMemoryResource::~DynamicMapMemoryResource()`: `free` every
entry still in the map, then clear the map. -/
def dmmrDestruct (r : DMMR) (s : SysState) : DMMR × SysState :=
  (⟨[]⟩, r.allocated_blocks.foldl (fun acc e => sysFree e.1 acc) s)

/-! ### `pmr_vector<T>` -/

/-- The fields of `pmr_vector<T>`: buffer pointer `data_` (`none` =
`nullptr`), the live constructed elements of slots `[0, size_)` in order
(so `size_ = elems.length`), `capacity_`, and the identity of the memory
resource held by `alloc_`. -/
structure PmrVector (α : Type) where
  data : Option Nat
  elems : List α
  capacity : Nat
  alloc : Nat
deriving Repr, DecidableEq

/-- `pmr_vector<T>::pmr_vector(mr)`: null buffer, zero size and capacity,
bound to the given resource. -/
def vecNew (α : Type) (mr : Nat) : PmrVector α := ⟨none, [], 0, mr⟩

/-- `pmr_vector<T>::size()`. -/
def vecSize (v : PmrVector α) : Nat := v.elems.length

/-- `pmr_vector<T>::empty()`. -/
def vecEmpty (v : PmrVector α) : Bool := vecSize v == 0

/-- `pmr_vector<T>::operator[](i)`: element at index `i`; the source leaves
`i ≥ size_` undefined, the model returns `none` there. -/
def vecGet (v : PmrVector α) (i : Nat) : Option α := v.elems.get? i

/-- The sequence produced by iterating from `begin()` to `end()`: the
buffer slots `[0, size_)` in order, i.e. exactly the live elements. -/
def vecIterate (v : PmrVector α) : List α := v.elems

/-- `pmr_vector<T>::grow()`, for elements of `esz = sizeof(T)` bytes:
compute `new_cap`, request a new buffer from the allocator (`ok` is the
oracle for the underlying `malloc`), and only if that succeeds
move-construct the elements across, destroy the old slots, deallocate the
old buffer if non-null, and adopt the new buffer and capacity.  On
allocation failure the exception propagates with every field unchanged:
the source assigns no field before `alloc_.allocate` returns. -/
def grow (ok : Bool) (esz : Nat) (v : PmrVector α) (r : DMMR) (s : SysState) :
    Except Unit Unit × PmrVector α × DMMR × SysState :=
  let new_cap := if v.capacity = 0 then 1 else v.capacity * 2
  match do_allocate ok (new_cap * esz) esz r s with
  | (none, r', s') => (Except.error (), v, r', s')
  | (some p, r', s') =>
    let rs : DMMR × SysState :=
      match v.data with
      | some old => do_deallocate old (v.capacity * esz) r' s'
      | none => (r', s')
    (Except.ok (), { v with data := some p, capacity := new_cap }, rs.1, rs.2)

/-- `pmr_vector<T>::push_back(value)`: grow when `size_ >= capacity_`
(propagating a growth failure with all states as the failed `grow` left
them), then construct the value into slot `size_` and increment `size_`.
Both overloads (copy and move) perform these same steps. -/
def push_back (ok : Bool) (esz : Nat) (x : α) (v : PmrVector α) (r : DMMR)
    (s : SysState) : Except Unit Unit × PmrVector α × DMMR × SysState :=
  if vecSize v ≥ v.capacity then
    match grow ok esz v r s with
    | (Except.error e, v', r', s') => (Except.error e, v', r', s')
    | (Except.ok _, v', r', s') =>
      (Except.ok (), { v' with elems := v'.elems ++ [x] }, r', s')
  else
    (Except.ok (), { v with elems := v.elems ++ [x] }, r, s)

/-- `pmr_vector<T>::clear()`: destroy the elements of slots `[0, size_)`
and set `size_` to 0; buffer, capacity and allocator are untouched. -/
def vecClear (v : PmrVector α) : PmrVector α := { v with elems := [] }

/-- `pmr_vector<T>::pmr_vector(pmr_vector&& other)`: the new object takes
`other`'s buffer, size, capacity and allocator; `other` is left with null
buffer, size 0, capacity 0 (its `alloc_` is not changed).  Returns
(destination, moved-from source). -/
def moveConstruct (v : PmrVector α) : PmrVector α × PmrVector α :=
  (⟨v.data, v.elems, v.capacity, v.alloc⟩,
   { v with data := none, elems := [], capacity := 0 })

/-- `pmr_vector<T>::operator=(pmr_vector&& other)`: `same` is the address
test `this == &other` (when it is `true` the caller passes the same state
for `dst` and `src`).  If distinct: `clear()`, deallocate the old buffer
if non-null, adopt `other`'s fields, reset `other` to the empty state.
Returns (destination, moved-from source, resource, heap). -/
def moveAssign (same : Bool) (esz : Nat) (dst src : PmrVector α) (r : DMMR)
    (s : SysState) : PmrVector α × PmrVector α × DMMR × SysState :=
  if same then
    (dst, src, r, s)
  else
    let dst₁ := vecClear dst
    let rs : DMMR × SysState :=
      match dst₁.data with
      | some old => do_deallocate old (dst₁.capacity * esz) r s
      | none => (r, s)
    (⟨src.data, src.elems, src.capacity, src.alloc⟩,
     { src with data := none, elems := [], capacity := 0 },
     rs.1, rs.2)

/-- `pmr_vector<T>::~pmr_vector()`: `clear()` then deallocate the buffer,
if non-null, with the full capacity as the element count. -/
def vecDestruct (esz : Nat) (v : PmrVector α) (r : DMMR) (s : SysState) :
    DMMR × SysState :=
  match (vecClear v).data with
  | some p => do_deallocate p (v.capacity * esz) r s
  | none => (r, s)

/-- Append a whole list with `push_back`, every underlying allocation
succeeding. -/
def pushAll (esz : Nat) (xs : List α) (v : PmrVector α) (r : DMMR)
    (s : SysState) : PmrVector α × DMMR × SysState :=
  match xs with
  | [] => (v, r, s)
  | x :: rest =>
    let t := push_back true esz x v r s
    pushAll esz rest t.2.1 t.2.2.1 t.2.2.2

/-! ### Traces of allocate/deallocate calls against one resource -/

/-- One external call into the resource: `alloc` carries the success oracle
of the underlying `malloc` and the requested byte count, `dealloc` the
pointer and byte count passed in. -/
inductive AllocOp where
  | alloc (ok : Bool) (bytes : Nat)
  | dealloc (p : Nat) (bytes : Nat)
deriving Repr, DecidableEq

/-- Trace bookkeeping: resource and heap state, plus the history the
accounting invariant talks about — `returned` is the list of
(handle, requested bytes) pairs successfully returned by `do_allocate`,
`removed` the handles of `do_deallocate` calls that matched an entry
(unmatched calls are ignored). -/
structure TraceSt where
  r : DMMR
  s : SysState
  returned : List (Nat × Nat)
  removed : List Nat
deriving Repr, DecidableEq

/-- Fresh resource on a fresh heap, empty history. -/
def traceInit : TraceSt := ⟨dmmrInit, sysInit, [], []⟩

/-- Execute one call and record it in the history. -/
def stepOp (st : TraceSt) (op : AllocOp) : TraceSt :=
  match op with
  | .alloc ok bytes =>
    match do_allocate ok bytes 1 st.r st.s with
    | (none, r', s') => { st with r := r', s := s' }
    | (some p, r', s') =>
      { st with r := r', s := s', returned := st.returned ++ [(p, bytes)] }
  | .dealloc p bytes =>
    let matched := (mapFind st.r.allocated_blocks p).isSome
    let rs := do_deallocate p bytes st.r st.s
    { st with
      r := rs.1
      s := rs.2
      removed := if matched then st.removed ++ [p] else st.removed }

/-- Run a whole sequence of calls from the initial state. -/
def runTrace (ops : List AllocOp) : TraceSt := ops.foldl stepOp traceInit

/-- N `do_allocate` calls, all of whose underlying allocations succeed,
with the given byte counts and no intervening deallocation. -/
def allocMany (bs : List Nat) (r : DMMR) (s : SysState) : DMMR × SysState :=
  match bs with
  | [] => (r, s)
  | b :: rest =>
    match do_allocate true b 1 r s with
    | (_, r', s') => allocMany rest r' s'

/-! ### Lemmas about the association-list map -/

theorem mapFind_eq_none {m : List (Nat × Nat)} {k : Nat} :
    mapFind m k = none ↔ k ∉ m.map Prod.fst := by
  induction m with
  | nil => simp [mapFind]
  | cons e rest ih =>
    obtain ⟨k', v'⟩ := e
    by_cases h : k' = k
    · subst h; simp [mapFind]
    · simp [mapFind, h, ih, Ne.symm h]

theorem mapFind_mapInsert_self (m : List (Nat × Nat)) (k v : Nat) :
    mapFind (mapInsert m k v) k = some v := by
  induction m with
  | nil => simp [mapInsert, mapFind]
  | cons e rest ih =>
    obtain ⟨k', v'⟩ := e
    by_cases h : k' = k
    · simp [mapInsert, h, mapFind]
    · simp [mapInsert, h, mapFind, ih]

theorem mapFind_mapInsert_ne {m : List (Nat × Nat)} {k v q : Nat}
    (h : q ≠ k) : mapFind (mapInsert m k v) q = mapFind m q := by
  induction m with
  | nil => simp [mapInsert, mapFind, Ne.symm h]
  | cons e rest ih =>
    obtain ⟨k', v'⟩ := e
    by_cases hk : k' = k
    · subst hk; simp [mapInsert, mapFind, Ne.symm h]
    · by_cases hq : k' = q <;> simp [mapInsert, hk, mapFind, hq, ih, h]

theorem mapInsert_of_find_none {m : List (Nat × Nat)} {k : Nat} (v : Nat)
    (h : mapFind m k = none) : mapInsert m k v = m ++ [(k, v)] := by
  induction m with
  | nil => simp [mapInsert]
  | cons e rest ih =>
    obtain ⟨k', v'⟩ := e
    by_cases hk : k' = k
    · simp [mapFind, hk] at h
    · simp [mapFind, hk] at h
      simp [mapInsert, hk, ih h]

theorem mapErase_sublist (m : List (Nat × Nat)) (k : Nat) :
    (mapErase m k).Sublist m := by
  induction m with
  | nil => simp [mapErase]
  | cons e rest ih =>
    obtain ⟨k', v'⟩ := e
    by_cases hk : k' = k
    · simp [mapErase, hk]
    · simpa [mapErase, hk] using ih.cons₂ (k', v')

theorem mapFind_mapErase_ne {m : List (Nat × Nat)} {k q : Nat}
    (h : q ≠ k) : mapFind (mapErase m k) q = mapFind m q := by
  induction m with
  | nil => simp [mapErase]
  | cons e rest ih =>
    obtain ⟨k', v'⟩ := e
    by_cases hk : k' = k
    · subst hk; simp [mapErase, mapFind, Ne.symm h]
    · simp [mapErase, hk, mapFind, ih]

theorem mapFind_mapErase_self {m : List (Nat × Nat)} {k : Nat}
    (h : (m.map Prod.fst).Nodup) : mapFind (mapErase m k) k = none := by
  induction m with
  | nil => simp [mapErase, mapFind]
  | cons e rest ih =>
    obtain ⟨k', v'⟩ := e
    simp only [List.map_cons, List.nodup_cons] at h
    by_cases hk : k' = k
    · subst hk
      simp only [mapErase, if_pos rfl]
      exact mapFind_eq_none.mpr h.1
    · simp [mapErase, hk, mapFind, ih h.2]

theorem sysFree_nextPtr (p : Nat) (s : SysState) :
    (sysFree p s).nextPtr = s.nextPtr := by
  unfold sysFree
  cases mapFind s.live p <;> rfl

/-! ### The accounting invariant of `DynamicMapMemoryResource` -/

/-- The strengthened induction invariant for traces: the map's keys are
distinct; an entry `(p, b)` is in the map exactly when `p` was returned by
a successful `do_allocate` with requested size `b` and was not since
removed by a matched `do_deallocate`; every recorded handle is below the
heap's fresh-pointer counter. -/
def TraceInv (st : TraceSt) : Prop :=
  (st.r.allocated_blocks.map Prod.fst).Nodup ∧
  (∀ p b, mapFind st.r.allocated_blocks p = some b ↔
    ((p, b) ∈ st.returned ∧ p ∉ st.removed)) ∧
  (∀ e ∈ st.returned, e.1 < st.s.nextPtr) ∧
  (∀ p ∈ st.removed, p < st.s.nextPtr)

theorem traceInit_inv : TraceInv traceInit := by
  refine ⟨by simp [traceInit, dmmrInit], ?_, by simp [traceInit], by simp [traceInit]⟩
  intro p b
  simp [traceInit, dmmrInit, mapFind]

theorem stepOp_inv {st : TraceSt} (h : TraceInv st) (op : AllocOp) :
    TraceInv (stepOp st op) := by
  obtain ⟨hnd, hiff, hret, hrem⟩ := h
  cases op with
  | alloc ok bytes =>
    cases ok with
    | false =>
      simpa [stepOp, do_allocate, sysMalloc] using ⟨hnd, hiff, hret, hrem⟩
    | true =>
      have hfind : mapFind st.r.allocated_blocks st.s.nextPtr = none := by
        cases h0 : mapFind st.r.allocated_blocks st.s.nextPtr with
        | none => rfl
        | some b' =>
          have := ((hiff _ _).mp h0).1
          exact absurd (hret _ this) (lt_irrefl _)
      have hfresh : st.s.nextPtr ∉ st.r.allocated_blocks.map Prod.fst :=
        mapFind_eq_none.mp hfind
      have hstep : stepOp st (.alloc true bytes) =
          { st with
            r := ⟨mapInsert st.r.allocated_blocks st.s.nextPtr bytes⟩
            s := ⟨st.s.nextPtr + 1, st.s.live ++ [(st.s.nextPtr, bytes)],
                  st.s.freedBytes⟩
            returned := st.returned ++ [(st.s.nextPtr, bytes)] } := by
        simp [stepOp, do_allocate, sysMalloc]
      rw [hstep]
      refine ⟨?_, ?_, ?_, ?_⟩
      · rw [mapInsert_of_find_none bytes hfind]
        simp [List.nodup_append, hnd, hfresh]
      · intro q b
        by_cases hq : q = st.s.nextPtr
        · subst hq
          rw [mapFind_mapInsert_self]
          constructor
          · rintro ⟨rfl⟩
            refine ⟨by simp, fun hmem => ?_⟩
            exact absurd (hrem _ hmem) (lt_irrefl _)
          · rintro ⟨hmem, -⟩
            rcases List.mem_append.mp hmem with hmem | hmem
            · exact absurd (hret _ hmem) (lt_irrefl _)
            · simp only [List.mem_singleton, Prod.mk.injEq] at hmem
              rw [hmem.2]
        · rw [mapFind_mapInsert_ne hq]
          rw [hiff q b]
          constructor
          · rintro ⟨hmem, hnr⟩
            exact ⟨List.mem_append.mpr (Or.inl hmem), hnr⟩
          · rintro ⟨hmem, hnr⟩
            rcases List.mem_append.mp hmem with hmem | hmem
            · exact ⟨hmem, hnr⟩
            · simp only [List.mem_singleton, Prod.mk.injEq] at hmem
              exact absurd hmem.1 hq
      · intro e he
        rcases List.mem_append.mp he with he | he
        · exact Nat.lt_succ_of_lt (hret _ he)
        · simp only [List.mem_singleton] at he
          subst he
          exact Nat.lt_succ_self _
      · intro q hq
        exact Nat.lt_succ_of_lt (hrem _ hq)
  | dealloc p bytes =>
    cases hm : mapFind st.r.allocated_blocks p with
    | none =>
      simpa [stepOp, do_deallocate, hm] using ⟨hnd, hiff, hret, hrem⟩
    | some b₀ =>
      have hstep : stepOp st (.dealloc p bytes) =
          { st with
            r := ⟨mapErase st.r.allocated_blocks p⟩
            s := sysFree p st.s
            removed := st.removed ++ [p] } := by
        simp [stepOp, do_deallocate, hm]
      rw [hstep]
      refine ⟨?_, ?_, ?_, ?_⟩
      · exact hnd.sublist ((mapErase_sublist _ _).map Prod.fst)
      · intro q b
        by_cases hq : q = p
        · subst hq
          rw [mapFind_mapErase_self hnd]
          simp
        · rw [mapFind_mapErase_ne hq, hiff q b]
          simp [hq]
      · intro e he
        rw [sysFree_nextPtr]
        exact hret _ he
      · intro q hq
        rw [sysFree_nextPtr]
        rcases List.mem_append.mp hq with hq | hq
        · exact hrem _ hq
        · simp only [List.mem_singleton] at hq
          subst hq
          exact hret _ ((hiff _ _).mp hm).1

theorem foldl_stepOp_inv (ops : List AllocOp) {st : TraceSt}
    (h : TraceInv st) : TraceInv (ops.foldl stepOp st) := by
  induction ops generalizing st with
  | nil => exact h
  | cons op rest ih => exact ih (stepOp_inv h op)

/-! ### Leak backstop: `allocMany` and the destructor -/

theorem allocMany_inv (bs : List Nat) (r : DMMR) (s : SysState)
    (heq : r.allocated_blocks = s.live)
    (hlt : ∀ q ∈ s.live.map Prod.fst, q < s.nextPtr)
    (hnd : (s.live.map Prod.fst).Nodup) :
    (allocMany bs r s).1.allocated_blocks = (allocMany bs r s).2.live ∧
    (∀ q ∈ (allocMany bs r s).2.live.map Prod.fst,
      q < (allocMany bs r s).2.nextPtr) ∧
    (allocMany bs r s).2.freedBytes = s.freedBytes ∧
    (allocMany bs r s).2.live.map Prod.snd = s.live.map Prod.snd ++ bs ∧
    ((allocMany bs r s).2.live.map Prod.fst).Nodup := by
  induction bs generalizing r s with
  | nil =>
    simp only [allocMany]
    exact ⟨heq, hlt, trivial, by simp, hnd⟩
  | cons b rest ih =>
    have hfind : mapFind r.allocated_blocks s.nextPtr = none := by
      rw [mapFind_eq_none, heq]
      intro hmem
      exact absurd (hlt _ hmem) (lt_irrefl _)
    have hstep : allocMany (b :: rest) r s =
        allocMany rest ⟨mapInsert r.allocated_blocks s.nextPtr b⟩
          ⟨s.nextPtr + 1, s.live ++ [(s.nextPtr, b)], s.freedBytes⟩ := by
      simp [allocMany, do_allocate, sysMalloc]
    rw [hstep]
    have heq' : mapInsert r.allocated_blocks s.nextPtr b =
        s.live ++ [(s.nextPtr, b)] := by
      rw [mapInsert_of_find_none b hfind, heq]
    have hlt' : ∀ q ∈ (s.live ++ [(s.nextPtr, b)]).map Prod.fst,
        q < s.nextPtr + 1 := by
      intro q hq
      rcases List.mem_map.mp hq with ⟨e, he, rfl⟩
      rcases List.mem_append.mp he with he | he
      · exact Nat.lt_succ_of_lt (hlt _ (List.mem_map.mpr ⟨e, he, rfl⟩))
      · simp only [List.mem_singleton] at he
        subst he
        exact Nat.lt_succ_self _
    have hnd' : ((s.live ++ [(s.nextPtr, b)]).map Prod.fst).Nodup := by
      simp only [List.map_append, List.map_cons, List.map_nil,
        List.nodup_append, List.nodup_cons, List.nodup_nil]
      refine ⟨hnd, by simp, ?_⟩
      intro q hq
      simp only [List.mem_singleton]
      intro hq'
      subst hq'
      exact absurd (hlt _ hq) (lt_irrefl _)
    obtain ⟨h1, h2, h3, h4, h5⟩ :=
      ih ⟨mapInsert r.allocated_blocks s.nextPtr b⟩
        ⟨s.nextPtr + 1, s.live ++ [(s.nextPtr, b)], s.freedBytes⟩ heq' hlt' hnd'
    refine ⟨h1, h2, h3, ?_, h5⟩
    rw [h4]
    simp

theorem destructFold_of_live (l : List (Nat × Nat)) :
    ∀ s : SysState, s.live = l → (l.map Prod.fst).Nodup →
    (l.foldl (fun acc e => sysFree e.1 acc) s).live = [] ∧
    (l.foldl (fun acc e => sysFree e.1 acc) s).freedBytes =
      s.freedBytes + (l.map Prod.snd).sum := by
  induction l with
  | nil => intro s hs _; simpa using hs
  | cons e rest ih =>
    intro s hs hnd
    obtain ⟨p, b⟩ := e
    simp only [List.map_cons, List.nodup_cons] at hnd
    have hfree : sysFree p s =
        ⟨s.nextPtr, rest, s.freedBytes + b⟩ := by
      unfold sysFree
      rw [hs]
      simp [mapFind, mapErase]
    simp only [List.foldl_cons]
    obtain ⟨h1, h2⟩ := ih (sysFree p s) (by rw [hfree]) hnd.2
    refine ⟨h1, ?_⟩
    rw [h2, hfree]
    simp [Nat.add_assoc]

/-- C2 — destroying the resource after any number of successful
allocations (and no deallocation) empties the map, leaves no live heap
block, and the bytes released by `free` sum to exactly the requested
sizes. -/
theorem dmmr_leak_backstop (bs : List Nat) :
    (dmmrDestruct (allocMany bs dmmrInit sysInit).1
        (allocMany bs dmmrInit sysInit).2).1.allocated_blocks = [] ∧
    (dmmrDestruct (allocMany bs dmmrInit sysInit).1
        (allocMany bs dmmrInit sysInit).2).2.live = [] ∧
    (dmmrDestruct (allocMany bs dmmrInit sysInit).1
        (allocMany bs dmmrInit sysInit).2).2.freedBytes = bs.sum := by
  obtain ⟨h1, h2, h3, h4, hnd⟩ := allocMany_inv bs dmmrInit sysInit rfl
    (by simp [sysInit]) (by simp [sysInit])
  obtain ⟨hl, hf⟩ := destructFold_of_live
    ((allocMany bs dmmrInit sysInit).1.allocated_blocks)
    ((allocMany bs dmmrInit sysInit).2) h1.symm (by rw [h1]; exact hnd)
  simp only [dmmrDestruct]
  refine ⟨trivial, hl, ?_⟩
  rw [hf, h3, h1, h4]
  simp [sysInit, dmmrInit]

/-! ### Claim theorems on the tracking resource -/

/-- C1 — after any sequence of allocate/deallocate calls, an entry
`(p, b)` is in the resource's map exactly when `p` was returned by a
successful allocate with requested size `b` and was not the subject of a
matched deallocate since, and every recorded handle appears exactly once
(the map's keys are distinct). -/
theorem dmmr_accounting_invariant (ops : List AllocOp) :
    (∀ p b, mapFind (runTrace ops).r.allocated_blocks p = some b ↔
      ((p, b) ∈ (runTrace ops).returned ∧ p ∉ (runTrace ops).removed)) ∧
    ((runTrace ops).r.allocated_blocks.map Prod.fst).Nodup := by
  obtain ⟨hnd, hiff, -, -⟩ := foldl_stepOp_inv ops traceInit_inv
  exact ⟨hiff, hnd⟩

/-- C8 — `do_deallocate` on a handle absent from the map is a silent
no-op: the map and the underlying heap are both left unchanged. -/
theorem do_deallocate_absent_noop (p bytes : Nat) (r : DMMR) (s : SysState)
    (h : mapFind r.allocated_blocks p = none) :
    do_deallocate p bytes r s = (r, s) := by
  simp [do_deallocate, h]

theorem do_deallocate_absent_noop_witness :
    mapFind dmmrInit.allocated_blocks 5 = none ∧
    do_deallocate 5 7 dmmrInit sysInit = (dmmrInit, sysInit) :=
  ⟨rfl, do_deallocate_absent_noop 5 7 dmmrInit sysInit rfl⟩

/-- C10 — the byte-count argument of `do_deallocate` never influences the
result: two calls with the same pointer on the same states produce equal
states whatever sizes are passed. -/
theorem do_deallocate_size_independent (p b₁ b₂ : Nat) (r : DMMR)
    (s : SysState) : do_deallocate p b₁ r s = do_deallocate p b₂ r s := rfl

/-! ### Claim theorems on the vector -/

/-- C4 — when growth is triggered (`size_ >= capacity_`) and the
underlying allocation fails, `push_back` propagates the failure and the
vector, the resource map and the heap are all exactly as before the call:
nothing is mutated before the new buffer is obtained. -/
theorem push_back_oom_atomic {α : Type} (esz : Nat) (x : α)
    (v : PmrVector α) (r : DMMR) (s : SysState)
    (h : vecSize v ≥ v.capacity) :
    push_back false esz x v r s = (Except.error (), v, r, s) := by
  simp [push_back, h, grow, do_allocate, sysMalloc]

theorem push_back_oom_atomic_witness :
    vecSize (vecNew Nat 0) ≥ (vecNew Nat 0).capacity ∧
    push_back false 4 7 (vecNew Nat 0) dmmrInit sysInit =
      (Except.error (), vecNew Nat 0, dmmrInit, sysInit) :=
  ⟨Nat.le_refl 0,
   push_back_oom_atomic 4 7 (vecNew Nat 0) dmmrInit sysInit (Nat.le_refl 0)⟩

/-- C6 — self move-assignment (`this == &other`, i.e. `same = true` with
the one object passed on both sides) is a no-op: object, resource map and
heap are all returned unchanged. -/
theorem moveAssign_self_noop {α : Type} (esz : Nat) (v : PmrVector α)
    (r : DMMR) (s : SysState) :
    moveAssign true esz v v r s = (v, v, r, s) := by
  simp [moveAssign]

theorem push_back_true_elems {α : Type} (esz : Nat) (x : α)
    (v : PmrVector α) (r : DMMR) (s : SysState) :
    (push_back true esz x v r s).2.1.elems = v.elems ++ [x] := by
  by_cases h : vecSize v ≥ v.capacity <;>
    simp [push_back, h, grow, do_allocate, sysMalloc]

theorem pushAll_elems {α : Type} (esz : Nat) (xs : List α)
    (v : PmrVector α) (r : DMMR) (s : SysState) :
    (pushAll esz xs v r s).1.elems = v.elems ++ xs := by
  induction xs generalizing v r s with
  | nil => simp [pushAll]
  | cons x rest ih =>
    simp only [pushAll]
    rw [ih, push_back_true_elems]
    simp

/-- C7 — `clear()` destroys the elements and zeroes the count while
keeping capacity, buffer and allocator (no release, no shrink), and
appending `k` fresh elements afterwards yields size `k` with each of them
retrievable at its index. -/
theorem clear_retains_storage_then_reuse {α : Type} (esz : Nat)
    (v : PmrVector α) (xs : List α) (r : DMMR) (s : SysState) :
    vecSize (vecClear v) = 0 ∧
    (vecClear v).capacity = v.capacity ∧
    (vecClear v).data = v.data ∧
    (vecClear v).alloc = v.alloc ∧
    vecSize (pushAll esz xs (vecClear v) r s).1 = xs.length ∧
    (∀ i : Nat, vecGet (pushAll esz xs (vecClear v) r s).1 i = xs.get? i) := by
  refine ⟨rfl, rfl, rfl, rfl, ?_, ?_⟩
  · simp [vecSize, pushAll_elems, vecClear]
  · intro i
    simp [vecGet, pushAll_elems, vecClear]

theorem push_back_true_capacity {α : Type} (esz : Nat) (x : α)
    (v : PmrVector α) (r : DMMR) (s : SysState) :
    (push_back true esz x v r s).2.1.capacity =
      if vecSize v ≥ v.capacity then
        (if v.capacity = 0 then 1 else v.capacity * 2)
      else v.capacity := by
  by_cases h : vecSize v ≥ v.capacity <;>
    simp [push_back, h, grow, do_allocate, sysMalloc]

/-- Strengthened growth invariant: either the vector never grew (no
elements, capacity 0) or its capacity is `2 ^ clog 2 count`, the least
power of two at least the element count. -/
def GrowthInv {α : Type} (v : PmrVector α) : Prop :=
  (v.elems = [] ∧ v.capacity = 0) ∨
  (v.elems ≠ [] ∧ v.capacity = 2 ^ Nat.clog 2 v.elems.length ∧
    v.elems.length ≤ v.capacity)

theorem push_back_growthInv {α : Type} (esz : Nat) (x : α)
    (v : PmrVector α) (r : DMMR) (s : SysState) (h : GrowthInv v) :
    GrowthInv (push_back true esz x v r s).2.1 := by
  have hel := push_back_true_elems esz x v r s
  have hcap := push_back_true_capacity esz x v r s
  rcases h with ⟨he, hc⟩ | ⟨hne, hc, hle⟩
  · right
    have hguard : vecSize v ≥ v.capacity := by
      simp [vecSize, he, hc]
    rw [hguard |> if_pos, if_pos hc] at hcap
    refine ⟨by simp [hel], ?_, ?_⟩
    · rw [hcap, hel, he]
      simp [Nat.clog_one_right]
    · rw [hcap, hel, he]
      simp
  · have hn1 : 1 ≤ v.elems.length := by
      cases hx : v.elems with
      | nil => exact absurd hx hne
      | cons a l => simp [hx]
    have hlen : (push_back true esz x v r s).2.1.elems.length =
        v.elems.length + 1 := by simp [hel]
    right
    by_cases hguard : vecSize v ≥ v.capacity
    · have heq : v.elems.length = v.capacity := le_antisymm hle hguard
      have hcpos : v.capacity ≠ 0 := by
        intro h0
        rw [h0] at heq
        exact absurd (heq ▸ hn1) (by simp)
      rw [if_pos hguard, if_neg hcpos] at hcap
      have hclog : Nat.clog 2 (v.elems.length + 1) =
          Nat.clog 2 v.elems.length + 1 := by
        apply le_antisymm
        · rw [← Nat.le_pow_iff_clog_le (by norm_num)]
          rw [pow_succ, ← hc, ← heq]
          omega
        · rw [Nat.succ_le_iff, ← Nat.pow_lt_iff_lt_clog (by norm_num), ← hc,
            ← heq]
          omega
      refine ⟨by simp [hel], ?_, ?_⟩
      · rw [hcap, hlen, hclog, hc, pow_succ]
      · rw [hcap, hlen, ← heq]
        omega
    · rw [if_neg hguard] at hcap
      have hlt : v.elems.length < v.capacity := by
        simp only [vecSize, ge_iff_le, not_le] at hguard
        exact hguard
      have hclog : Nat.clog 2 (v.elems.length + 1) =
          Nat.clog 2 v.elems.length := by
        apply le_antisymm
        · rw [← Nat.le_pow_iff_clog_le (by norm_num), ← hc]
          omega
        · exact Nat.clog_mono_right 2 (Nat.le_succ _)
      refine ⟨by simp [hel], ?_, ?_⟩
      · rw [hcap, hlen, hclog, hc]
      · rw [hcap, hlen]
        omega

theorem pushAll_growthInv {α : Type} (esz : Nat) (xs : List α)
    (v : PmrVector α) (r : DMMR) (s : SysState) (h : GrowthInv v) :
    GrowthInv (pushAll esz xs v r s).1 := by
  induction xs generalizing v r s with
  | nil => exact h
  | cons x rest ih =>
    simp only [pushAll]
    exact ih _ _ _ (push_back_growthInv esz x v r s h)

/-- C3 — appending `N` elements to a fresh vector yields size `N`, the
elements in append order under iteration, and capacity equal to the least
power of two at least `N` (`0` when `N = 0`), never less than `N`; and
one `push_back` leaves capacity unchanged unless `size_ >= capacity_`, in
which case the new capacity is `1` if it was `0` and twice it
otherwise. -/
theorem growth_correctness {α : Type} (esz mr : Nat) (xs : List α)
    (r : DMMR) (s : SysState) :
    vecSize (pushAll esz xs (vecNew α mr) r s).1 = xs.length ∧
    vecIterate (pushAll esz xs (vecNew α mr) r s).1 = xs ∧
    (pushAll esz xs (vecNew α mr) r s).1.capacity =
      (if xs.length = 0 then 0 else 2 ^ Nat.clog 2 xs.length) ∧
    xs.length ≤ (pushAll esz xs (vecNew α mr) r s).1.capacity ∧
    (∀ (w : PmrVector α) (y : α) (r' : DMMR) (s' : SysState),
      (push_back true esz y w r' s').2.1.capacity =
        if vecSize w ≥ w.capacity then
          (if w.capacity = 0 then 1 else w.capacity * 2)
        else w.capacity) := by
  have hel : (pushAll esz xs (vecNew α mr) r s).1.elems = xs := by
    rw [pushAll_elems]
    rfl
  have hinv := pushAll_growthInv esz xs (vecNew α mr) r s
    (Or.inl ⟨rfl, rfl⟩)
  refine ⟨by simp [vecSize, hel], by simp [vecIterate, hel], ?_, ?_,
    fun w y r' s' => push_back_true_capacity esz y w r' s'⟩
  · rcases hinv with ⟨he, hc⟩ | ⟨hne, hc, -⟩
    · rw [hel] at he
      subst he
      simpa using hc
    · rw [hel] at hc hne
      have hpos : xs.length ≠ 0 := by
        intro h0
        exact hne (List.length_eq_zero.mp h0)
      rw [if_neg hpos, hc]
  · rcases hinv with ⟨he, hc⟩ | ⟨-, -, hle⟩
    · rw [hel] at he
      subst he
      simp
    · rw [hel] at hle
      exact hle

/-- C5 — move construction hands the destination the source's buffer,
elements, capacity and allocator and resets the source to the empty
state; move assignment (distinct objects) does the same and additionally
releases the destination's prior buffer through the resource first, so
that buffer's handle is no longer in the resource's map afterwards (when
the destination's buffer was null, resource and heap are untouched). -/
theorem move_transfer {α : Type} (esz : Nat) (a dst src : PmrVector α)
    (r : DMMR) (s : SysState)
    (hnd : (r.allocated_blocks.map Prod.fst).Nodup) :
    ((moveConstruct a).1.data = a.data ∧
     (moveConstruct a).1.elems = a.elems ∧
     (moveConstruct a).1.capacity = a.capacity ∧
     (moveConstruct a).1.alloc = a.alloc) ∧
    ((moveConstruct a).2.data = none ∧
     vecSize (moveConstruct a).2 = 0 ∧
     (moveConstruct a).2.capacity = 0) ∧
    ((moveAssign false esz dst src r s).1.data = src.data ∧
     (moveAssign false esz dst src r s).1.elems = src.elems ∧
     (moveAssign false esz dst src r s).1.capacity = src.capacity ∧
     (moveAssign false esz dst src r s).1.alloc = src.alloc) ∧
    ((moveAssign false esz dst src r s).2.1.data = none ∧
     vecSize (moveAssign false esz dst src r s).2.1 = 0 ∧
     (moveAssign false esz dst src r s).2.1.capacity = 0) ∧
    (∀ p, dst.data = some p →
      mapFind (moveAssign false esz dst src r s).2.2.1.allocated_blocks p =
        none) ∧
    (dst.data = none →
      (moveAssign false esz dst src r s).2.2.1 = r ∧
      (moveAssign false esz dst src r s).2.2.2 = s) := by
  refine ⟨⟨rfl, rfl, rfl, rfl⟩, ⟨rfl, rfl, rfl⟩, ?_, ?_, ?_, ?_⟩
  · exact ⟨by simp [moveAssign], by simp [moveAssign], by simp [moveAssign],
      by simp [moveAssign]⟩
  · exact ⟨by simp [moveAssign], by simp [moveAssign, vecSize],
      by simp [moveAssign]⟩
  · intro p hp
    have hstep : (moveAssign false esz dst src r s).2.2 =
        do_deallocate p (dst.capacity * esz) r s := by
      simp [moveAssign, vecClear, hp]
    rw [hstep]
    cases hm : mapFind r.allocated_blocks p with
    | none => simp [do_deallocate, hm]
    | some b => simpa [do_deallocate, hm] using mapFind_mapErase_self hnd
  · intro hp
    constructor <;> simp [moveAssign, vecClear, hp]

theorem move_transfer_witness :
    (((⟨[(1, 8)]⟩ : DMMR).allocated_blocks.map Prod.fst).Nodup) ∧
    (((moveConstruct (⟨some 2, [5], 1, 3⟩ : PmrVector Nat)).1.data =
        (⟨some 2, [5], 1, 3⟩ : PmrVector Nat).data ∧
      (moveConstruct (⟨some 2, [5], 1, 3⟩ : PmrVector Nat)).1.elems =
        (⟨some 2, [5], 1, 3⟩ : PmrVector Nat).elems ∧
      (moveConstruct (⟨some 2, [5], 1, 3⟩ : PmrVector Nat)).1.capacity =
        (⟨some 2, [5], 1, 3⟩ : PmrVector Nat).capacity ∧
      (moveConstruct (⟨some 2, [5], 1, 3⟩ : PmrVector Nat)).1.alloc =
        (⟨some 2, [5], 1, 3⟩ : PmrVector Nat).alloc) ∧
     ((moveConstruct (⟨some 2, [5], 1, 3⟩ : PmrVector Nat)).2.data = none ∧
      vecSize (moveConstruct (⟨some 2, [5], 1, 3⟩ : PmrVector Nat)).2 = 0 ∧
      (moveConstruct (⟨some 2, [5], 1, 3⟩ : PmrVector Nat)).2.capacity = 0) ∧
     ((moveAssign false 4 (⟨some 1, [3, 4], 2, 0⟩ : PmrVector Nat)
          ⟨some 9, [7], 1, 6⟩ ⟨[(1, 8)]⟩ sysInit).1.data =
        (⟨some 9, [7], 1, 6⟩ : PmrVector Nat).data ∧
      (moveAssign false 4 (⟨some 1, [3, 4], 2, 0⟩ : PmrVector Nat)
          ⟨some 9, [7], 1, 6⟩ ⟨[(1, 8)]⟩ sysInit).1.elems =
        (⟨some 9, [7], 1, 6⟩ : PmrVector Nat).elems ∧
      (moveAssign false 4 (⟨some 1, [3, 4], 2, 0⟩ : PmrVector Nat)
          ⟨some 9, [7], 1, 6⟩ ⟨[(1, 8)]⟩ sysInit).1.capacity =
        (⟨some 9, [7], 1, 6⟩ : PmrVector Nat).capacity ∧
      (moveAssign false 4 (⟨some 1, [3, 4], 2, 0⟩ : PmrVector Nat)
          ⟨some 9, [7], 1, 6⟩ ⟨[(1, 8)]⟩ sysInit).1.alloc =
        (⟨some 9, [7], 1, 6⟩ : PmrVector Nat).alloc) ∧
     ((moveAssign false 4 (⟨some 1, [3, 4], 2, 0⟩ : PmrVector Nat)
          ⟨some 9, [7], 1, 6⟩ ⟨[(1, 8)]⟩ sysInit).2.1.data = none ∧
      vecSize (moveAssign false 4 (⟨some 1, [3, 4], 2, 0⟩ : PmrVector Nat)
          ⟨some 9, [7], 1, 6⟩ ⟨[(1, 8)]⟩ sysInit).2.1 = 0 ∧
      (moveAssign false 4 (⟨some 1, [3, 4], 2, 0⟩ : PmrVector Nat)
          ⟨some 9, [7], 1, 6⟩ ⟨[(1, 8)]⟩ sysInit).2.1.capacity = 0) ∧
     (∀ p, (⟨some 1, [3, 4], 2, 0⟩ : PmrVector Nat).data = some p →
       mapFind (moveAssign false 4 (⟨some 1, [3, 4], 2, 0⟩ : PmrVector Nat)
           ⟨some 9, [7], 1, 6⟩ ⟨[(1, 8)]⟩ sysInit).2.2.1.allocated_blocks p =
         none) ∧
     ((⟨some 1, [3, 4], 2, 0⟩ : PmrVector Nat).data = none →
       (moveAssign false 4 (⟨some 1, [3, 4], 2, 0⟩ : PmrVector Nat)
           ⟨some 9, [7], 1, 6⟩ ⟨[(1, 8)]⟩ sysInit).2.2.1 = ⟨[(1, 8)]⟩ ∧
       (moveAssign false 4 (⟨some 1, [3, 4], 2, 0⟩ : PmrVector Nat)
           ⟨some 9, [7], 1, 6⟩ ⟨[(1, 8)]⟩ sysInit).2.2.2 = sysInit)) :=
  ⟨by decide,
   move_transfer 4 ⟨some 2, [5], 1, 3⟩ ⟨some 1, [3, 4], 2, 0⟩
     ⟨some 9, [7], 1, 6⟩ ⟨[(1, 8)]⟩ sysInit (by decide)⟩

/-- A two-element vector built by two appends: elements `[10, 20]`,
capacity 2. -/
def cxFirst : PmrVector Nat × DMMR × SysState :=
  pushAll 4 [10, 20] (vecNew Nat 0) dmmrInit sysInit

/-- A one-element vector built by one further append: element `[30]`,
capacity 1. -/
def cxSecond : PmrVector Nat × DMMR × SysState :=
  pushAll 4 [30] (vecNew Nat 0) cxFirst.2.1 cxFirst.2.2

/-- Move-assigning the one-element vector into the two-element one. -/
def cxAssign : PmrVector Nat × PmrVector Nat × DMMR × SysState :=
  moveAssign false 4 cxFirst.1 cxSecond.1 cxSecond.2.1 cxSecond.2.2

/-- C9 counterexample — move-assignment can strictly decrease the
destination's capacity to a non-zero value: a capacity-2 vector
move-assigned from a capacity-1 vector ends with capacity 1, which is
neither ≥ its old capacity nor 0, so capacity is not monotonically
non-decreasing with the only exceptions being drops to 0 on destruction
or move-out of a source. -/
theorem capacity_monotone_counterexample :
    cxFirst.1.capacity = 2 ∧ cxAssign.1.capacity = 1 ∧
    cxAssign.1.capacity < cxFirst.1.capacity ∧ cxAssign.1.capacity ≠ 0 := by
  decide

/-- C9 amended — every operation (construct, append with any allocation
outcome, clear, move-construct, move-assign) preserves `count ≤ capacity`;
capacity never decreases under append and is unchanged by clear; moving
out of a source sets its capacity to 0; the destination of a
move-assignment takes exactly the source's capacity (after its prior
buffer is fully released). -/
theorem size_le_capacity_invariant {α : Type} (ok : Bool) (esz mr : Nat)
    (x : α) (v w : PmrVector α) (r : DMMR) (s : SysState)
    (hv : vecSize v ≤ v.capacity) :
    vecSize (vecNew α mr) ≤ (vecNew α mr).capacity ∧
    vecSize (push_back ok esz x v r s).2.1 ≤
      (push_back ok esz x v r s).2.1.capacity ∧
    v.capacity ≤ (push_back ok esz x v r s).2.1.capacity ∧
    vecSize (vecClear v) ≤ (vecClear v).capacity ∧
    (vecClear v).capacity = v.capacity ∧
    vecSize (moveConstruct v).1 ≤ (moveConstruct v).1.capacity ∧
    vecSize (moveConstruct v).2 ≤ (moveConstruct v).2.capacity ∧
    (moveConstruct v).2.capacity = 0 ∧
    (moveConstruct v).1.capacity = v.capacity ∧
    vecSize (moveAssign false esz w v r s).1 ≤
      (moveAssign false esz w v r s).1.capacity ∧
    (moveAssign false esz w v r s).1.capacity = v.capacity ∧
    vecSize (moveAssign false esz w v r s).2.1 ≤
      (moveAssign false esz w v r s).2.1.capacity ∧
    (moveAssign false esz w v r s).2.1.capacity = 0 := by
  have hpb : vecSize (push_back ok esz x v r s).2.1 ≤
      (push_back ok esz x v r s).2.1.capacity ∧
      v.capacity ≤ (push_back ok esz x v r s).2.1.capacity := by
    cases ok with
    | true =>
      have h1 := push_back_true_elems esz x v r s
      have h2 := push_back_true_capacity esz x v r s
      simp only [vecSize] at hv ⊢
      rw [h1, h2]
      simp only [List.length_append, List.length_singleton, vecSize]
      constructor <;> (split_ifs with hg hc <;> omega)
    | false =>
      by_cases hg : vecSize v ≥ v.capacity
      · have hstep : push_back false esz x v r s =
            (Except.error (), v, r, s) := by
          simp [push_back, hg, grow, do_allocate, sysMalloc]
        rw [hstep]
        exact ⟨hv, le_refl _⟩
      · have hstep : push_back false esz x v r s =
            (Except.ok (), { v with elems := v.elems ++ [x] }, r, s) := by
          simp [push_back, hg]
        rw [hstep]
        simp only [vecSize, ge_iff_le, not_le] at hv hg ⊢
        simp only [List.length_append, List.length_singleton]
        omega
  refine ⟨le_refl 0, hpb.1, hpb.2, Nat.zero_le _, rfl, hv, Nat.zero_le _,
    rfl, rfl, ?_, ?_, ?_, ?_⟩
  · simpa [moveAssign, vecSize] using hv
  · simp [moveAssign]
  · simp [moveAssign, vecSize]
  · simp [moveAssign]

theorem size_le_capacity_invariant_witness :
    vecSize (⟨some 1, [5], 1, 0⟩ : PmrVector Nat) ≤
      (⟨some 1, [5], 1, 0⟩ : PmrVector Nat).capacity ∧
    (vecSize (vecNew Nat 0) ≤ (vecNew Nat 0).capacity ∧
     vecSize (push_back true 4 7 (⟨some 1, [5], 1, 0⟩ : PmrVector Nat)
         ⟨[(1, 4)]⟩ sysInit).2.1 ≤
       (push_back true 4 7 (⟨some 1, [5], 1, 0⟩ : PmrVector Nat)
         ⟨[(1, 4)]⟩ sysInit).2.1.capacity ∧
     (⟨some 1, [5], 1, 0⟩ : PmrVector Nat).capacity ≤
       (push_back true 4 7 (⟨some 1, [5], 1, 0⟩ : PmrVector Nat)
         ⟨[(1, 4)]⟩ sysInit).2.1.capacity ∧
     vecSize (vecClear (⟨some 1, [5], 1, 0⟩ : PmrVector Nat)) ≤
       (vecClear (⟨some 1, [5], 1, 0⟩ : PmrVector Nat)).capacity ∧
     (vecClear (⟨some 1, [5], 1, 0⟩ : PmrVector Nat)).capacity =
       (⟨some 1, [5], 1, 0⟩ : PmrVector Nat).capacity ∧
     vecSize (moveConstruct (⟨some 1, [5], 1, 0⟩ : PmrVector Nat)).1 ≤
       (moveConstruct (⟨some 1, [5], 1, 0⟩ : PmrVector Nat)).1.capacity ∧
     vecSize (moveConstruct (⟨some 1, [5], 1, 0⟩ : PmrVector Nat)).2 ≤
       (moveConstruct (⟨some 1, [5], 1, 0⟩ : PmrVector Nat)).2.capacity ∧
     (moveConstruct (⟨some 1, [5], 1, 0⟩ : PmrVector Nat)).2.capacity = 0 ∧
     (moveConstruct (⟨some 1, [5], 1, 0⟩ : PmrVector Nat)).1.capacity =
       (⟨some 1, [5], 1, 0⟩ : PmrVector Nat).capacity ∧
     vecSize (moveAssign false 4 (⟨some 2, [1, 2, 3], 4, 0⟩ : PmrVector Nat)
         ⟨some 1, [5], 1, 0⟩ ⟨[(1, 4)]⟩ sysInit).1 ≤
       (moveAssign false 4 (⟨some 2, [1, 2, 3], 4, 0⟩ : PmrVector Nat)
         ⟨some 1, [5], 1, 0⟩ ⟨[(1, 4)]⟩ sysInit).1.capacity ∧
     (moveAssign false 4 (⟨some 2, [1, 2, 3], 4, 0⟩ : PmrVector Nat)
         ⟨some 1, [5], 1, 0⟩ ⟨[(1, 4)]⟩ sysInit).1.capacity =
       (⟨some 1, [5], 1, 0⟩ : PmrVector Nat).capacity ∧
     vecSize (moveAssign false 4 (⟨some 2, [1, 2, 3], 4, 0⟩ : PmrVector Nat)
         ⟨some 1, [5], 1, 0⟩ ⟨[(1, 4)]⟩ sysInit).2.1 ≤
       (moveAssign false 4 (⟨some 2, [1, 2, 3], 4, 0⟩ : PmrVector Nat)
         ⟨some 1, [5], 1, 0⟩ ⟨[(1, 4)]⟩ sysInit).2.1.capacity ∧
     (moveAssign false 4 (⟨some 2, [1, 2, 3], 4, 0⟩ : PmrVector Nat)
         ⟨some 1, [5], 1, 0⟩ ⟨[(1, 4)]⟩ sysInit).2.1.capacity = 0) :=
  ⟨by decide,
   size_le_capacity_invariant true 4 0 7 ⟨some 1, [5], 1, 0⟩
     ⟨some 2, [1, 2, 3], 4, 0⟩ ⟨[(1, 4)]⟩ sysInit (by decide)⟩

end Lab5
